import Mathlib

/-!
# proc_reader.c: a shallow embedding and its properties

Bytes are natural numbers below 256. A C string is the list of the bytes of
its storage; reading past the end of the list reads the terminating NUL, and
a NUL inside the list ends the string there, as it does for the C code.
Console output is the list of bytes sent to standard output.
-/

namespace ProcReader

/-! ## Bytes, C strings and the libc pieces the program calls -/

/-- The bytes of a string literal (all literals in the program are ASCII). -/
def bytes (s : String) : List Nat := s.toList.map Char.toNat

/-- The byte at the pointer: the head of the storage, NUL past its end. -/
def deref (p : List Nat) : Nat := p.headD 0

/-- The text of a C string: the bytes before the first NUL. -/
def cstr : List Nat → List Nat
  | [] => []
  | c :: p => if c = 0 then [] else c :: cstr p

/-- The libc test isdigit on an unsigned char value: the ten ASCII digits. -/
def isdigit (c : Nat) : Bool := decide (48 ≤ c) && decide (c ≤ 57)

/-- The libc test isspace in the C locale: space, \t, \n, \v, \f, \r. -/
def isspace (c : Nat) : Bool := decide (c = 32) || (decide (9 ≤ c) && decide (c ≤ 13))

/-! ## is_number (proc_reader.c, lines 8-17) -/

/-- The loop of is_number: `while (*p) { if (!isdigit(*p)) return 0; p++; }`
followed by `return 1`. -/
def is_number_loop : List Nat → Int
  | [] => 1
  | c :: p => if c = 0 then 1 else if !isdigit c then 0 else is_number_loop p

/-- The function is_number; the argument none is the null pointer. -/
def is_number (str : Option (List Nat)) : Int :=
  match str with
  | none => 0
  | some s => if deref s = 0 then 0 else is_number_loop s

/-! ## Run outcomes -/

/-- How a run of a modelled function ends: it returns a value, or it performs
a store outside an array (undefined behaviour in C), or the model's loop
budget is used up (shown below never to happen with the budgets supplied). -/
inductive Run (α : Type) where
  | returned (a : α)
  | undefined
  | outOfFuel
deriving DecidableEq, Repr

/-! ## More libc: string functions, formatted output, stdio and read(2) -/

/-- The libc function strlen. -/
def strlen (s : List Nat) : Nat := (cstr s).length

/-- The libc function strncmp: compares at most n bytes, stopping after a NUL.
The result is zero exactly when the compared bytes agree. -/
def strncmp : List Nat → List Nat → Nat → Int
  | _, _, 0 => 0
  | s1, s2, n + 1 =>
    if deref s1 ≠ deref s2 then (deref s1 : Int) - (deref s2 : Int)
    else if deref s1 = 0 then 0
    else strncmp s1.tail s2.tail n

/-- What printf prints for a "%s" conversion: the text of the C string. -/
def printf_s (s : List Nat) : List Nat := cstr s

/-- The digits of the conversion of an unsigned value to decimal, most
significant first; the first argument bounds the number of digits. -/
def utoa_loop : Nat → Nat → List Nat → List Nat
  | 0, _, acc => acc
  | fuel + 1, n, acc =>
    if n < 10 then (48 + n) :: acc
    else utoa_loop fuel (n / 10) ((48 + n % 10) :: acc)

/-- Decimal digits of a natural number. -/
def utoa (n : Nat) : List Nat := utoa_loop (n + 1) n []

/-- What printf prints for a "%d" conversion. -/
def printf_d (n : Int) : List Nat :=
  if n < 0 then 45 :: utoa (-n).toNat else utoa n.toNat

/-- What printf prints for a "%-8s" conversion: the text, padded on the right
with spaces to a width of 8. -/
def printf_s_left8 (s : List Nat) : List Nat :=
  cstr s ++ List.replicate (8 - (cstr s).length) 32

/-- The libc function snprintf with the formatted text already expanded: at
most size - 1 bytes of it are stored. -/
def snprintf (size : Nat) (text : List Nat) : List Nat := text.take (size - 1)

/-- The value of an int after a conversion from a wider integer on a
two's-complement machine. -/
def wrap32 (x : Int) : Int := (x + 2147483648) % 4294967296 - 2147483648

/-- The range of long on the LP64 targets the program is built for. -/
def clamp64 (x : Int) : Int :=
  if x < -9223372036854775808 then -9223372036854775808
  else if 9223372036854775807 < x then 9223372036854775807
  else x

/-- The digit run at the start of the string, accumulated in base ten. -/
def atoi_digits : List Nat → Nat → Nat
  | [], acc => acc
  | c :: p, acc => if isdigit c then atoi_digits p (10 * acc + (c - 48)) else acc

/-- The optional sign of the libc conversion: whether it is a minus, and the
rest of the string. -/
def atoi_sign (s : List Nat) : Bool × List Nat :=
  match s with
  | 45 :: t => (true, t)
  | 43 :: t => (false, t)
  | _ => (false, s)

/-- The libc function atoi, that is (int) strtol(s, NULL, 10): white space is
skipped, an optional sign is read, then the longest run of digits; with no
digit the value is 0. A value outside long saturates in strtol and the cast
to int keeps the low 32 bits (the C standard leaves this case undefined). -/
def atoi (s : List Nat) : Int :=
  let body := atoi_sign (s.dropWhile isspace)
  let v : Int := (atoi_digits body.2 0 : Nat)
  wrap32 (clamp64 (if body.1 then -v else v))

/-- The scan of fgets: at most n bytes are taken from the stream, and the
scan stops after a newline. The result is the bytes taken and the rest of
the stream. -/
def fgets_scan : Nat → List Nat → List Nat × List Nat
  | 0, f => ([], f)
  | _ + 1, [] => ([], [])
  | n + 1, c :: f =>
    if c = 10 then ([c], f)
    else (c :: (fgets_scan n f).1, (fgets_scan n f).2)

/-- The libc function fgets(line, size, f) on a stream whose unread bytes are
f: NULL (none) at end of file, otherwise the bytes stored in line before the
terminating NUL, and the stream after the call. -/
def fgets (size : Nat) (f : List Nat) : Option (List Nat × List Nat) :=
  match f with
  | [] => none
  | _ :: _ => some (fgets_scan (size - 1) f)

/-- The result of one call of read(2). -/
inductive ReadResult where
  /-- The call returns the number of bytes of the chunk, after storing them. -/
  | data (chunk : List Nat)
  /-- The call returns -1. -/
  | error
deriving DecidableEq, Repr

/-- The bytes read(fd, buf, count) stores: the kernel delivers at most count
bytes of what is available. -/
def sys_read_chunk (count : Nat) (chunk : List Nat) : List Nat := chunk.take count

/-- The buffer after read(2) has stored a chunk at its start. -/
def sys_read (buf : List Nat) (chunk : List Nat) : List Nat :=
  chunk ++ buf.drop chunk.length

/-- A store buf[i] = v into an array: none when i is not an index of it. -/
def store (buf : List Nat) (i : Nat) (v : Nat) : Option (List Nat) :=
  if i < buf.length then some (buf.set i v) else none

/-! ## print_first_n_lines (lines 20-35) and show_system_info (lines 133-145) -/

/-- The loop `while (count < n && fgets(line, sizeof(line), f) != NULL)
{ printf("%s", line); count++; }` with line of 512 bytes. The first argument
is the budget of iterations; none means it was used up. -/
def print_first_n_lines_loop : Nat → Int → Int → List Nat → List Nat → Option (List Nat)
  | 0, _, _, _, _ => none
  | fuel + 1, n, count, f, out =>
    if count < n then
      match fgets 512 f with
      | none => some out
      | some (line, f1) => print_first_n_lines_loop fuel n (count + 1) f1 (out ++ printf_s line)
    else some out

/-- The function print_first_n_lines: what it prints on standard output.
The first argument is fopen: the content of the file at a path, or none when
it cannot be opened (then only perror writes, to standard error). -/
def print_first_n_lines (fopen : List Nat → Option (List Nat)) (path : List Nat) (n : Int) :
    Option (List Nat) :=
  match fopen path with
  | none => some []
  | some f => print_first_n_lines_loop (f.length + 1) n 0 f []

/-- The function show_system_info: its return value and its output. -/
def show_system_info (fopen : List Nat → Option (List Nat)) : Run (Int × List Nat) :=
  match print_first_n_lines fopen (bytes "/proc/cpuinfo") 10 with
  | none => Run.outOfFuel
  | some cpu =>
    match print_first_n_lines fopen (bytes "/proc/meminfo") 10 with
    | none => Run.outOfFuel
    | some mem =>
      Run.returned (0,
        bytes "Reading system information...\n\n" ++
        bytes "--- CPU Information (first 10 lines) ---\n" ++ cpu ++ bytes "\n" ++
        bytes "--- Memory Information (first 10 lines) ---\n" ++ mem ++
        bytes "SUCCESS: System information displayed!\n")

/-! ## list_process_directories (lines 39-65) -/

/-- The loop over readdir: the entries still to come, the counter and the
output so far. The counter is an int; its increment is modelled with
two's-complement wrap-around. -/
def readdir_loop : List (List Nat) → Int → List Nat → Int × List Nat
  | [], count, out => (count, out)
  | d_name :: rest, count, out =>
    if is_number (some d_name) ≠ 0 then
      readdir_loop rest (wrap32 (count + 1))
        (out ++ (printf_s_left8 d_name ++ bytes " process\n"))
    else readdir_loop rest count out

/-- The function list_process_directories: its return value and its output.
The argument is opendir: the entry names of a directory in enumeration
order, or none when it cannot be opened. -/
def list_process_directories (opendir : List Nat → Option (List (List Nat))) :
    Int × List Nat :=
  match opendir (bytes "/proc") with
  | none => (-1, [])
  | some dir =>
    let header := bytes "Listing all process directories in /proc...\n" ++
      bytes "PID      Type\n" ++ bytes "---      ----\n"
    let r := readdir_loop dir 0 header
    (0, r.2 ++ (bytes "Found " ++ printf_d r.1 ++ bytes " process directories\n") ++
      bytes "SUCCESS: Process directories listed!\n")

/-! ## read_process_info (lines 69-129) -/

/-- The array keys of read_process_info. -/
def keys : List (List Nat) :=
  [bytes "Name:", bytes "Umask:", bytes "State:", bytes "Tgid:", bytes "Ngid:",
   bytes "Pid:", bytes "PPid:", bytes "TracerPid:", bytes "Uid:", bytes "Gid:"]

/-- The loop `for (i = 0; i < num_keys; i++)` over the keys still to test:
what it prints for one line. -/
def keys_loop : List (List Nat) → List Nat → List Nat
  | [], _ => []
  | key :: rest, line =>
    if strncmp line key (strlen key) = 0 then printf_s line
    else keys_loop rest line

/-- The loop `while (fgets(line, sizeof(line), status) != NULL)` with line of
512 bytes. The first argument is the budget of iterations; none means it was
used up. -/
def status_loop : Nat → List Nat → List Nat → Option (List Nat)
  | 0, _, _ => none
  | fuel + 1, f, out =>
    match fgets 512 f with
    | none => some out
    | some (line, f1) => status_loop fuel f1 (out ++ keys_loop keys line)

/-- The loop `for (i = 0; i < bytes; i++) if (buf[i] == 0) buf[i] = 32`: the
first argument is bytes - i. -/
def nul_to_space_loop : Nat → Nat → List Nat → List Nat
  | 0, _, buf => buf
  | k + 1, i, buf =>
    nul_to_space_loop k (i + 1) (if buf.getD i 0 = 0 then buf.set i 32 else buf)

/-- The loop `while ((bytes = read(fd, buf, sizeof(buf))) > 0)` of the
command-line phase, with buf of 1024 bytes: the results of the reads still
to come, the buffer and the output so far. -/
def cmdline_loop : List ReadResult → List Nat → List Nat → Run (List Nat)
  | [], _, out => Run.returned out
  | ReadResult.error :: _, _, out => Run.returned out
  | ReadResult.data chunk :: rest, buf, out =>
    let got := sys_read_chunk 1024 chunk
    if 0 < got.length then
      let buf1 := nul_to_space_loop got.length 0 (sys_read buf got)
      match store buf1 got.length 0 with
      | none => Run.undefined
      | some buf2 => cmdline_loop rest buf2 (out ++ printf_s buf2)
    else Run.returned out

/-- The two paths read_process_info formats from the pid. -/
def status_path (pid : Int) : List Nat :=
  snprintf 256 (bytes "/proc/" ++ printf_d pid ++ bytes "/status")

/-- The path of the command-line record. -/
def cmdline_path (pid : Int) : List Nat :=
  snprintf 256 (bytes "/proc/" ++ printf_d pid ++ bytes "/cmdline")

/-- The function read_process_info: its return value and its output. The
first argument is fopen (the content of a file, or none), the second is
open(2) followed by the results of the successive reads (or none when the
call fails). The buffer buf is not initialised by the program; the model
starts it with zeros. -/
def read_process_info (fopen : List Nat → Option (List Nat))
    (sys_open : List Nat → Option (List ReadResult)) (pid_str : List Nat) :
    Run (Int × List Nat) :=
  let pid := atoi pid_str
  let out0 := bytes "Reading information for PID " ++ printf_d pid ++ bytes "...\n\n"
  match fopen (status_path pid) with
  | none => Run.returned (-1, out0)
  | some status =>
    let out1 := out0 ++ (bytes "--- Process Information for PID " ++ printf_d pid ++
      bytes " ---\n")
    match status_loop (status.length + 1) status out1 with
    | none => Run.outOfFuel
    | some out2 =>
      let out3 := out2 ++ bytes "\n--- Command Line ---\n"
      match sys_open (cmdline_path pid) with
      | some fd =>
        match cmdline_loop fd (List.replicate 1024 0) out3 with
        | Run.returned out4 =>
          Run.returned (0, out4 ++ bytes "\n" ++ bytes "SUCCESS: Process information read!\n")
        | Run.undefined => Run.undefined
        | Run.outOfFuel => Run.outOfFuel
      | none => Run.returned (0, out3 ++ bytes "SUCCESS: Process information read!\n")

/-! ## read_file_with_syscalls (lines 149-175), read_file_with_library (179-193) -/

/-- The loop of read_file_with_syscalls, with buf of 1024 bytes. The first
argument tells whether the k-th call of write succeeds (then it is taken to
write all the bytes) or returns a negative value. -/
def syscalls_loop (wr : Nat → Bool) : List ReadResult → Nat → List Nat → List Nat →
    Int × List Nat
  | [], _, _, out => (0, out)
  | ReadResult.error :: _, _, _, out => (-1, out)
  | ReadResult.data chunk :: rest, k, buf, out =>
    let got := sys_read_chunk 1024 chunk
    if 0 < got.length then
      let buf1 := sys_read buf got
      if wr k then syscalls_loop wr rest (k + 1) buf1 (out ++ buf1.take got.length)
      else (-1, out)
    else (0, out)

/-- The function read_file_with_syscalls: its return value and the bytes it
writes to standard output. -/
def read_file_with_syscalls (sys_open : List Nat → Option (List ReadResult))
    (wr : Nat → Bool) (filename : List Nat) : Int × List Nat :=
  match sys_open filename with
  | none => (-1, [])
  | some fd => syscalls_loop wr fd 0 (List.replicate 1024 0) []

/-- The loop `while (fgets(line, sizeof(line), f) != NULL) printf("%s", line)`
with line of 512 bytes. -/
def library_loop : Nat → List Nat → List Nat → Option (List Nat)
  | 0, _, _ => none
  | fuel + 1, f, out =>
    match fgets 512 f with
    | none => some out
    | some (line, f1) => library_loop fuel f1 (out ++ printf_s line)

/-- The function read_file_with_library: its return value and its output. -/
def read_file_with_library (fopen : List Nat → Option (List Nat)) (filename : List Nat) :
    Run (Int × List Nat) :=
  match fopen filename with
  | none => Run.returned (-1, [])
  | some f =>
    match library_loop (f.length + 1) f [] with
    | none => Run.outOfFuel
    | some out => Run.returned (0, out)

/-! ## The words of the specification -/

/-- The lines of a text: each line ends with its newline, except possibly
the last one. -/
def lines_of : List Nat → List (List Nat)
  | [] => []
  | c :: s =>
    if c = 10 then [c] :: lines_of s
    else
      match lines_of s with
      | [] => [[c]]
      | l :: ls => (c :: l) :: ls

/-- The number of calls of fgets with a buffer of 512 bytes that a line
takes: one for each 511 bytes started. -/
def reads_needed (l : List Nat) : Nat := (l.length + 510) / 511

/-- The number of calls of fgets that the given lines take together. -/
def total_reads (ls : List (List Nat)) : Nat := (ls.map reads_needed).sum

/-- The ten field names of the allow-list as the specification lists them. -/
def field_names : List (List Nat) :=
  [bytes "Name", bytes "Umask", bytes "State", bytes "Tgid", bytes "Ngid",
   bytes "Pid", bytes "PPid", bytes "TracerPid", bytes "Uid", bytes "Gid"]

/-- Whether a line begins with one of the given prefixes. -/
def begins_with_one_of (prefixes : List (List Nat)) (line : List Nat) : Bool :=
  prefixes.any (fun p => p.isPrefixOf line)

/-- The value of a string of decimal digits. -/
def decimal_value (s : List Nat) : Nat := Nat.ofDigits 10 (s.reverse.map (fun c => c - 48))

/-- The text with every NUL replaced by a space. -/
def nul_to_space (s : List Nat) : List Nat := s.map (fun c => if c = 0 then 32 else c)

/-! ## Sample inputs -/

/-- A status record with one line for each of the ten keys, followed by five
other lines. -/
def sample_status : List Nat :=
  bytes "Name:\tbash\nUmask:\t0022\nState:\tS (sleeping)\nTgid:\t42\nNgid:\t0\n" ++
  bytes "Pid:\t42\nPPid:\t1\nTracerPid:\t0\nUid:\t0\t0\t0\t0\nGid:\t0\t0\t0\t0\n" ++
  bytes "FDSize:\t256\nGroups:\t0\nNStgid:\t42\nVmPeak:\t1 kB\nThreads:\t1\n"

/-- A process filesystem that holds the status record of process 42 only. -/
def proc_with_42 (path : List Nat) : Option (List Nat) :=
  if path = bytes "/proc/42/status" then some sample_status else none

/-- The command-line record of process 42, read in one call. -/
def cmdline_of_42 (path : List Nat) : Option (List ReadResult) :=
  if path = bytes "/proc/42/cmdline" then some [ReadResult.data (bytes "bash\x00-l\x00")]
  else none

/-! ## Facts about C strings -/

theorem cstr_of_no_nul (s : List Nat) (h : ∀ c ∈ s, c ≠ 0) : cstr s = s := by
  induction s with
  | nil => rfl
  | cons c p ih =>
    have hc : c ≠ 0 := h c (List.mem_cons_self c p)
    simp only [cstr, if_neg hc]
    rw [ih (fun d hd => h d (List.mem_cons_of_mem c hd))]

theorem cstr_no_nul (s : List Nat) : ∀ c ∈ cstr s, c ≠ 0 := by
  induction s with
  | nil => intro c hc; simp [cstr] at hc
  | cons d p ih =>
    intro c hc
    by_cases hd : d = 0
    · simp [cstr, hd] at hc
    · simp only [cstr, if_neg hd, List.mem_cons] at hc
      rcases hc with rfl | hc
      · exact hd
      · exact ih c hc

theorem is_number_loop_eq_one (s : List Nat) :
    is_number_loop s = 1 ↔ ∀ c ∈ cstr s, isdigit c = true := by
  induction s with
  | nil => simp [is_number_loop, cstr]
  | cons c p ih =>
    by_cases hc : c = 0
    · simp [is_number_loop, cstr, hc]
    · by_cases hd : isdigit c = true
      · simp [is_number_loop, cstr, hc, hd, ih]
      · simp [is_number_loop, cstr, hc, hd]

theorem is_number_loop_zero_or_one (s : List Nat) :
    is_number_loop s = 0 ∨ is_number_loop s = 1 := by
  induction s with
  | nil => right; rfl
  | cons c p ih =>
    by_cases hc : c = 0
    · right; simp [is_number_loop, hc]
    · by_cases hd : isdigit c = true
      · simpa [is_number_loop, hc, hd] using ih
      · left; simp [is_number_loop, hc, hd]

theorem is_number_some_eq_one (s : List Nat) :
    is_number (some s) = 1 ↔ cstr s ≠ [] ∧ ∀ c ∈ cstr s, isdigit c = true := by
  cases s with
  | nil => simp [is_number, deref, cstr]
  | cons c p =>
    by_cases hc : c = 0
    · simp [is_number, deref, cstr, hc]
    · have h1 : cstr (c :: p) ≠ [] := by simp [cstr, hc]
      simp only [is_number, deref, List.headD_cons, if_neg hc, is_number_loop_eq_one]
      exact ⟨fun h => ⟨h1, h⟩, fun h => h.2⟩

theorem is_number_zero_or_one (str : Option (List Nat)) :
    is_number str = 0 ∨ is_number str = 1 := by
  cases str with
  | none => left; rfl
  | some s =>
    by_cases h0 : deref s = 0
    · left; simp [is_number, h0]
    · simpa [is_number, h0] using is_number_loop_zero_or_one s

/-! ## C1 -/

/-- C1: is_number returns 1 exactly when the argument is a non-null string
whose text is non-empty and consists of ASCII decimal digits only, and 0 in
every other case; the null pointer, the empty string, "12a3", "-5", "+5" and
" 5" give 0, and "0" and "12345" give 1. -/
theorem is_number_spec :
    (∀ str : Option (List Nat),
      (is_number str = 1 ↔
        ∃ s, str = some s ∧ cstr s ≠ [] ∧ ∀ c ∈ cstr s, 48 ≤ c ∧ c ≤ 57) ∧
      (is_number str = 0 ∨ is_number str = 1)) ∧
    is_number none = 0 ∧ is_number (some (bytes "")) = 0 ∧
    is_number (some (bytes "12a3")) = 0 ∧ is_number (some (bytes "-5")) = 0 ∧
    is_number (some (bytes "+5")) = 0 ∧ is_number (some (bytes " 5")) = 0 ∧
    is_number (some (bytes "5 ")) = 0 ∧
    is_number (some (bytes "0")) = 1 ∧ is_number (some (bytes "12345")) = 1 := by
  refine ⟨?_, by decide, by decide, by decide, by decide, by decide, by decide,
    by decide, by decide, by decide⟩
  intro str
  cases str with
  | none => simp [is_number]
  | some s =>
    constructor
    · rw [is_number_some_eq_one]
      constructor
      · rintro ⟨h1, h2⟩
        refine ⟨s, rfl, h1, fun c hc => ?_⟩
        simpa [isdigit] using h2 c hc
      · rintro ⟨t, ht, h1, h2⟩
        cases ht
        refine ⟨h1, fun c hc => ?_⟩
        simpa [isdigit] using h2 c hc
    · exact is_number_zero_or_one (some s)

/-! ## Facts about fgets -/

theorem fgets_scan_append (n : Nat) (f : List Nat) :
    (fgets_scan n f).1 ++ (fgets_scan n f).2 = f := by
  induction n generalizing f with
  | zero => simp [fgets_scan]
  | succ n ih =>
    cases f with
    | nil => simp [fgets_scan]
    | cons c f =>
      by_cases hc : c = 10
      · simp [fgets_scan, hc]
      · simp [fgets_scan, hc, ih f]

theorem fgets_scan_rest_length (n : Nat) (c : Nat) (f : List Nat) :
    (fgets_scan (n + 1) (c :: f)).2.length < (c :: f).length := by
  have h := congrArg List.length (fgets_scan_append n f)
  by_cases hc : c = 10
  · simp [fgets_scan, hc]
  · simp only [fgets_scan, if_neg hc, List.length_cons]
    simp only [List.length_append] at h
    omega

/-- A call of fgets with a buffer of 512 bytes that does not return NULL
takes a non-empty piece off the front of the stream. -/
theorem fgets_some (f line f1 : List Nat) (h : fgets 512 f = some (line, f1)) :
    line ++ f1 = f ∧ f1.length < f.length := by
  cases f with
  | nil => simp [fgets] at h
  | cons c f =>
    simp only [fgets, Option.some.injEq] at h
    have h1 := fgets_scan_append 511 (c :: f)
    have h2 := fgets_scan_rest_length 510 c f
    rw [h] at h1 h2
    exact ⟨h1, h2⟩

/-! ## The two readers of the method comparison -/

theorem library_loop_no_nul (fuel : Nat) (f out : List Nat)
    (hfuel : f.length < fuel) (hnul : ∀ c ∈ f, c ≠ 0) :
    library_loop fuel f out = some (out ++ f) := by
  induction fuel generalizing f out with
  | zero => omega
  | succ fuel ih =>
    cases hg : fgets 512 f with
    | none =>
      cases f with
      | nil => simp [library_loop, hg]
      | cons c f => simp [fgets] at hg
    | some r =>
      obtain ⟨line, f1⟩ := r
      obtain ⟨happ, hlen⟩ := fgets_some f line f1 hg
      have hline : ∀ c ∈ line, c ≠ 0 := fun c hc =>
        hnul c (by rw [← happ]; exact List.mem_append_left f1 hc)
      have hf1 : ∀ c ∈ f1, c ≠ 0 := fun c hc =>
        hnul c (by rw [← happ]; exact List.mem_append_right line hc)
      simp only [library_loop, hg]
      rw [ih f1 (out ++ printf_s line) (by omega) hf1, printf_s, cstr_of_no_nul line hline,
        List.append_assoc, happ]

theorem sys_read_take (buf got : List Nat) : (sys_read buf got).take got.length = got := by
  simp [sys_read]

theorem syscalls_loop_chunks (wr : Nat → Bool) (hwr : ∀ k, wr k = true)
    (chunks : List (List Nat)) (k : Nat) (buf out : List Nat)
    (hsize : ∀ c ∈ chunks, 1 ≤ c.length ∧ c.length ≤ 1024) :
    syscalls_loop wr (chunks.map ReadResult.data) k buf out = (0, out ++ chunks.flatten) := by
  induction chunks generalizing k buf out with
  | nil => simp [syscalls_loop]
  | cons c rest ih =>
    have hc := hsize c (List.mem_cons_self c rest)
    have hgot : sys_read_chunk 1024 c = c := by
      simp [sys_read_chunk, List.take_of_length_le hc.2]
    have hpos : 0 < c.length := hc.1
    simp only [List.map_cons, syscalls_loop, hgot, hpos, if_true, hwr k, sys_read_take]
    rw [ih (k + 1) (sys_read buf c) (out ++ c) (fun d hd => hsize d (List.mem_cons_of_mem c hd))]
    simp

/-! ## C6 -/

/-- C6: for a file whose content has no NUL byte, read however the raw reads
split it into chunks of 1 to 1024 bytes and with every write succeeding,
read_file_with_syscalls and read_file_with_library both return 0 and both
emit exactly the content of the file, so their outputs are identical. -/
theorem comparator_outputs_agree (fopen : List Nat → Option (List Nat))
    (sys_open : List Nat → Option (List ReadResult)) (wr : Nat → Bool)
    (filename content : List Nat) (chunks : List (List Nat))
    (hfile : fopen filename = some content)
    (hfd : sys_open filename = some (chunks.map ReadResult.data))
    (hsplit : chunks.flatten = content)
    (hsize : ∀ c ∈ chunks, 1 ≤ c.length ∧ c.length ≤ 1024)
    (hwr : ∀ k, wr k = true)
    (hnul : ∀ c ∈ content, c ≠ 0) :
    read_file_with_syscalls sys_open wr filename = (0, content) ∧
    read_file_with_library fopen filename = Run.returned (0, content) ∧
    Run.returned (read_file_with_syscalls sys_open wr filename) =
      read_file_with_library fopen filename := by
  have h1 : read_file_with_syscalls sys_open wr filename = (0, content) := by
    simp only [read_file_with_syscalls, hfd]
    rw [syscalls_loop_chunks wr hwr chunks 0 _ [] hsize, hsplit]
    simp
  have h2 : read_file_with_library fopen filename = Run.returned (0, content) := by
    simp only [read_file_with_library, hfile]
    rw [library_loop_no_nul (content.length + 1) content [] (by omega) hnul]
    simp
  exact ⟨h1, h2, by rw [h1, h2]⟩

/-- A three-line text file, read raw in chunks of 7, 11 and 8 bytes. -/
theorem comparator_outputs_agree_witness :
    read_file_with_syscalls
        (fun _ => some ([bytes "Linux v", bytes "ersion 6.1\n", bytes "gcc 12\n\n"].map
          ReadResult.data))
        (fun _ => true) (bytes "/proc/version") =
      (0, bytes "Linux version 6.1\ngcc 12\n\n") ∧
    read_file_with_library (fun _ => some (bytes "Linux version 6.1\ngcc 12\n\n"))
        (bytes "/proc/version") =
      Run.returned (0, bytes "Linux version 6.1\ngcc 12\n\n") ∧
    Run.returned (read_file_with_syscalls
        (fun _ => some ([bytes "Linux v", bytes "ersion 6.1\n", bytes "gcc 12\n\n"].map
          ReadResult.data))
        (fun _ => true) (bytes "/proc/version")) =
      read_file_with_library (fun _ => some (bytes "Linux version 6.1\ngcc 12\n\n"))
        (bytes "/proc/version") :=
  comparator_outputs_agree (fun _ => some (bytes "Linux version 6.1\ngcc 12\n\n"))
    (fun _ => some ([bytes "Linux v", bytes "ersion 6.1\n", bytes "gcc 12\n\n"].map
      ReadResult.data))
    (fun _ => true) (bytes "/proc/version") (bytes "Linux version 6.1\ngcc 12\n\n")
    [bytes "Linux v", bytes "ersion 6.1\n", bytes "gcc 12\n\n"]
    rfl rfl (by decide) (by decide) (fun _ => rfl) (by decide)

/-! ## Lines of a text and fgets -/

theorem lines_of_eq_nil (s : List Nat) : lines_of s = [] ↔ s = [] := by
  cases s with
  | nil => simp [lines_of]
  | cons c s =>
    by_cases hc : c = 10
    · simp [lines_of, hc]
    · cases h : lines_of s <;> simp [lines_of, hc, h]

theorem flatten_lines_of (s : List Nat) : (lines_of s).flatten = s := by
  induction s with
  | nil => simp [lines_of]
  | cons c s ih =>
    by_cases hc : c = 10
    · simp [lines_of, hc, ih]
    · cases h : lines_of s with
      | nil =>
        have hs : s = [] := (lines_of_eq_nil s).1 h
        simp [lines_of, hc, h, hs]
      | cons l ls =>
        rw [h] at ih
        simp only [lines_of, if_neg hc, h, List.flatten_cons, List.cons_append] at ih ⊢
        rw [ih]

theorem lines_of_length_cons (c : Nat) (s : List Nat) :
    (lines_of (c :: s)).length =
      if c = 10 then (lines_of s).length + 1 else max 1 (lines_of s).length := by
  by_cases hc : c = 10
  · simp [lines_of, hc]
  · cases h : lines_of s <;> simp [lines_of, hc, h]

theorem lines_of_length_append (a b : List Nat) :
    (lines_of (a ++ b)).length ≤ (lines_of a).length + (lines_of b).length := by
  induction a with
  | nil => simp [lines_of]
  | cons c a ih =>
    rw [List.cons_append, lines_of_length_cons, lines_of_length_cons]
    by_cases hc : c = 10
    · simp only [hc, if_true]; omega
    · simp only [hc, if_false]; omega

/-- When the first line of the stream fits the buffer, the scan of fgets
takes exactly that line and leaves the other lines. -/
theorem fgets_scan_line (f : List Nat) (n : Nat) (l : List Nat) (ls : List (List Nat))
    (hl : lines_of f = l :: ls) (hn : l.length ≤ n) :
    (fgets_scan n f).1 = l ∧ lines_of (fgets_scan n f).2 = ls := by
  induction f generalizing n l ls with
  | nil => simp [lines_of] at hl
  | cons c f ih =>
    by_cases hc : c = 10
    · simp only [lines_of, hc, if_true, List.cons.injEq] at hl
      obtain ⟨h1, h2⟩ := hl
      subst h1
      obtain ⟨m, rfl⟩ : ∃ m, n = m + 1 := ⟨n - 1, by simp at hn; omega⟩
      simp [fgets_scan, hc, h2]
    · cases h : lines_of f with
      | nil =>
        have hf : f = [] := (lines_of_eq_nil f).1 h
        subst hf
        simp only [lines_of, if_neg hc, List.cons.injEq] at hl
        obtain ⟨h1, h2⟩ := hl
        subst h1; subst h2
        obtain ⟨m, rfl⟩ : ∃ m, n = m + 1 := ⟨n - 1, by simp at hn; omega⟩
        cases m <;> simp [fgets_scan, hc, lines_of]
      | cons l1 ls1 =>
        simp only [lines_of, if_neg hc, h, List.cons.injEq] at hl
        obtain ⟨h1, h2⟩ := hl
        subst h1; subst h2
        obtain ⟨m, rfl⟩ : ∃ m, n = m + 1 := ⟨n - 1, by simp at hn; omega⟩
        obtain ⟨e1, e2⟩ := ih m l1 ls1 h (by simp at hn; omega)
        simp [fgets_scan, hc, e1, e2]

theorem fgets_line (f l : List Nat) (ls : List (List Nat))
    (hl : lines_of f = l :: ls) (hn : l.length ≤ 511) :
    ∃ f1, fgets 512 f = some (l, f1) ∧ lines_of f1 = ls := by
  cases f with
  | nil => simp [lines_of] at hl
  | cons c f =>
    obtain ⟨e1, e2⟩ := fgets_scan_line (c :: f) 511 l ls hl hn
    refine ⟨(fgets_scan 511 (c :: f)).2, ?_, e2⟩
    simp only [fgets]
    rw [← e1]

/-- What printf prints of a piece returned by fgets is at most one line. -/
theorem lines_of_cstr_fgets_scan (n : Nat) (f : List Nat) :
    (lines_of (cstr (fgets_scan n f).1)).length ≤ 1 := by
  induction n generalizing f with
  | zero => simp [fgets_scan, cstr, lines_of]
  | succ n ih =>
    cases f with
    | nil => simp [fgets_scan, cstr, lines_of]
    | cons c f =>
      by_cases hc : c = 10
      · simp [fgets_scan, hc, cstr, lines_of]
      · by_cases h0 : c = 0
        · simp [fgets_scan, hc, cstr, h0, lines_of]
        · have h := ih f
          simp only [fgets_scan, if_neg hc, List.cons, cstr, if_neg h0, lines_of_length_cons]
          omega

/-! ## print_first_n_lines -/

theorem print_first_n_lines_loop_bound (fuel : Nat) (n count : Int) (f out : List Nat)
    (hfuel : f.length < fuel) :
    ∃ r, print_first_n_lines_loop fuel n count f out = some r ∧
      (lines_of r).length ≤ (lines_of out).length + (n - count).toNat := by
  induction fuel generalizing count f out with
  | zero => omega
  | succ fuel ih =>
    by_cases hlt : count < n
    · cases hg : fgets 512 f with
      | none => exact ⟨out, by simp [print_first_n_lines_loop, hlt, hg], by omega⟩
      | some p =>
        obtain ⟨line, f1⟩ := p
        obtain ⟨_, hlen⟩ := fgets_some f line f1 hg
        obtain ⟨r, hr, hb⟩ := ih (count + 1) f1 (out ++ printf_s line) (by omega)
        refine ⟨r, by simp [print_first_n_lines_loop, hlt, hg, hr], ?_⟩
        have h1 : (lines_of (printf_s line)).length ≤ 1 := by
          cases f with
          | nil => simp [fgets] at hg
          | cons c f =>
            simp only [fgets, Option.some.injEq] at hg
            have := lines_of_cstr_fgets_scan 511 (c :: f)
            rw [hg] at this
            exact this
        have h2 := lines_of_length_append out (printf_s line)
        omega
    · exact ⟨out, by simp [print_first_n_lines_loop, hlt], by omega⟩

theorem print_first_n_lines_loop_lines (fuel : Nat) (n count : Int) (f out : List Nat)
    (hfuel : f.length < fuel)
    (hfirst : ∀ l ∈ (lines_of f).take (n - count).toNat,
      l.length ≤ 511 ∧ ∀ c ∈ l, c ≠ 0) :
    print_first_n_lines_loop fuel n count f out =
      some (out ++ ((lines_of f).take (n - count).toNat).flatten) := by
  induction fuel generalizing count f out with
  | zero => omega
  | succ fuel ih =>
    by_cases hlt : count < n
    · cases hl : lines_of f with
      | nil =>
        have hf : f = [] := (lines_of_eq_nil f).1 hl
        subst hf
        simp [print_first_n_lines_loop, hlt, fgets]
      | cons l ls =>
        have hk : (n - count).toNat = (n - (count + 1)).toNat + 1 := by omega
        rw [hl, hk, List.take_succ_cons] at hfirst
        obtain ⟨hlen511, hline⟩ := hfirst l (List.mem_cons_self l _)
        obtain ⟨f1, hg, hls⟩ := fgets_line f l ls hl hlen511
        obtain ⟨_, hlen⟩ := fgets_some f l f1 hg
        have hf1 : ∀ l1 ∈ (lines_of f1).take (n - (count + 1)).toNat,
            l1.length ≤ 511 ∧ ∀ c ∈ l1, c ≠ 0 := fun l1 h1 =>
          hfirst l1 (by rw [hls] at h1; exact List.mem_cons_of_mem l h1)
        simp only [print_first_n_lines_loop, hlt, if_true, hg]
        rw [ih (count + 1) f1 (out ++ printf_s l) (by omega) hf1, hk, hls, printf_s,
          cstr_of_no_nul l hline]
        simp
    · have hk : (n - count).toNat = 0 := by omega
      simp [print_first_n_lines_loop, hlt, hk]

theorem lines_of_ne_nil (s : List Nat) : ∀ l ∈ lines_of s, l ≠ [] := by
  induction s with
  | nil => simp [lines_of]
  | cons c s ih =>
    intro l hl
    by_cases hc : c = 10
    · simp only [lines_of, hc, if_true, List.mem_cons] at hl
      rcases hl with rfl | hl
      · simp
      · exact ih l hl
    · cases h : lines_of s with
      | nil =>
        simp only [lines_of, if_neg hc, h, List.mem_singleton] at hl
        subst hl; simp
      | cons l1 ls1 =>
        simp only [lines_of, if_neg hc, h, List.mem_cons] at hl
        rcases hl with rfl | hl
        · simp
        · exact ih l (by rw [h]; exact List.mem_cons_of_mem l1 hl)

/-- When the first line of the stream is longer than the buffer, the scan of
fgets takes the start of the line and leaves its end as a line. -/
theorem fgets_scan_long_line (f : List Nat) (n : Nat) (l : List Nat) (ls : List (List Nat))
    (hl : lines_of f = l :: ls) (hn : n < l.length) :
    (fgets_scan n f).1 = l.take n ∧ lines_of (fgets_scan n f).2 = l.drop n :: ls := by
  induction f generalizing n l ls with
  | nil => simp [lines_of] at hl
  | cons c f ih =>
    cases n with
    | zero => simp [fgets_scan, hl]
    | succ m =>
      by_cases hc : c = 10
      · simp only [lines_of, hc, if_true, List.cons.injEq] at hl
        obtain ⟨h1, _⟩ := hl
        subst h1
        simp at hn
      · cases h : lines_of f with
        | nil =>
          simp only [lines_of, if_neg hc, h, List.cons.injEq] at hl
          obtain ⟨h1, _⟩ := hl
          subst h1
          simp at hn
        | cons l1 ls1 =>
          simp only [lines_of, if_neg hc, h, List.cons.injEq] at hl
          obtain ⟨h1, h2⟩ := hl
          subst h1; subst h2
          obtain ⟨e1, e2⟩ := ih m l1 ls1 h (by simp at hn; omega)
          simp [fgets_scan, hc, e1, e2]

/-- Each call of fgets that returns a piece uses up one of the calls that
the lines of the stream take. -/
theorem fgets_total_reads (f line f1 : List Nat) (h : fgets 512 f = some (line, f1)) :
    total_reads (lines_of f1) + 1 ≤ total_reads (lines_of f) := by
  cases f with
  | nil => simp [fgets] at h
  | cons c f =>
    simp only [fgets, Option.some.injEq] at h
    cases hl : lines_of (c :: f) with
    | nil => exact absurd ((lines_of_eq_nil _).1 hl) (by simp)
    | cons l ls =>
      have hne : l ≠ [] := lines_of_ne_nil (c :: f) l (by rw [hl]; simp)
      have hpos : 0 < l.length := List.length_pos.2 hne
      by_cases hshort : l.length ≤ 511
      · obtain ⟨_, e2⟩ := fgets_scan_line (c :: f) 511 l ls hl hshort
        rw [h] at e2
        simp only at e2
        rw [e2]
        simp only [total_reads, List.map_cons, List.sum_cons, reads_needed]
        omega
      · obtain ⟨_, e2⟩ := fgets_scan_long_line (c :: f) 511 l ls hl (by omega)
        rw [h] at e2
        simp only at e2
        rw [e2]
        simp only [total_reads, List.map_cons, List.sum_cons, reads_needed, List.length_drop]
        omega

theorem print_first_n_lines_loop_whole (fuel : Nat) (n count : Int) (f out : List Nat)
    (hfuel : f.length < fuel) (hnul : ∀ c ∈ f, c ≠ 0)
    (hreads : total_reads (lines_of f) ≤ (n - count).toNat) :
    print_first_n_lines_loop fuel n count f out = some (out ++ f) := by
  induction fuel generalizing count f out with
  | zero => omega
  | succ fuel ih =>
    cases hg : fgets 512 f with
    | none =>
      cases f with
      | nil =>
        by_cases hlt : count < n
        · simp [print_first_n_lines_loop, hlt, hg]
        · simp [print_first_n_lines_loop, hlt]
      | cons c f => simp [fgets] at hg
    | some p =>
      obtain ⟨line, f1⟩ := p
      obtain ⟨happ, hlen⟩ := fgets_some f line f1 hg
      have hdec := fgets_total_reads f line f1 hg
      have hlt : count < n := by omega
      have hline : ∀ c ∈ line, c ≠ 0 := fun c hc =>
        hnul c (by rw [← happ]; exact List.mem_append_left f1 hc)
      have hf1 : ∀ c ∈ f1, c ≠ 0 := fun c hc =>
        hnul c (by rw [← happ]; exact List.mem_append_right line hc)
      simp only [print_first_n_lines_loop, hlt, if_true, hg]
      rw [ih (count + 1) f1 (out ++ printf_s line) (by omega) hf1 (by omega), printf_s,
        cstr_of_no_nul line hline, List.append_assoc, happ]

theorem reads_needed_pos (l : List Nat) (hne : l ≠ []) : 1 ≤ reads_needed l := by
  have hpos : 0 < l.length := List.length_pos.2 hne
  simp only [reads_needed]; omega

theorem length_le_total_reads (ls : List (List Nat)) (hne : ∀ l ∈ ls, l ≠ []) :
    ls.length ≤ total_reads ls := by
  induction ls with
  | nil => simp [total_reads]
  | cons l ls ih =>
    have h1 := reads_needed_pos l (hne l (List.mem_cons_self l ls))
    have h2 := ih (fun l1 h => hne l1 (List.mem_cons_of_mem l h))
    simp only [total_reads, List.map_cons, List.sum_cons, List.length_cons] at h2 ⊢
    omega

/-- Lines that take no more calls of fgets than there are lines have at most
511 bytes each. -/
theorem short_of_total_reads (ls : List (List Nat)) (hne : ∀ l ∈ ls, l ≠ [])
    (htot : total_reads ls ≤ ls.length) : ∀ l ∈ ls, l.length ≤ 511 := by
  induction ls with
  | nil => intro l hl; simp at hl
  | cons l0 ls ih =>
    have h1 := reads_needed_pos l0 (hne l0 (List.mem_cons_self l0 ls))
    have h2 := length_le_total_reads ls (fun l1 h => hne l1 (List.mem_cons_of_mem l0 h))
    simp only [total_reads, List.map_cons, List.sum_cons, List.length_cons] at htot h2
    intro l hl
    rcases List.mem_cons.1 hl with rfl | hl
    · simp only [reads_needed] at htot h1
      omega
    · exact ih (fun l1 h => hne l1 (List.mem_cons_of_mem l0 h))
        (by simp only [total_reads]; omega) l hl

theorem total_reads_of_short (ls : List (List Nat)) (hshort : ∀ l ∈ ls, l.length ≤ 511) :
    total_reads ls ≤ ls.length := by
  induction ls with
  | nil => simp [total_reads]
  | cons l ls ih =>
    have h1 := hshort l (List.mem_cons_self l ls)
    have h2 := ih (fun l1 h => hshort l1 (List.mem_cons_of_mem l h))
    simp only [total_reads, List.map_cons, List.sum_cons, List.length_cons, reads_needed]
      at h2 ⊢
    omega

/-- The first n lines of a file are printed in full when they have no NUL
byte and take at most n calls of fgets together. -/
theorem print_first_n_lines_loop_reads (n : Nat) (f out : List Nat)
    (hnul : ∀ l ∈ (lines_of f).take n, ∀ c ∈ l, c ≠ 0)
    (hreads : total_reads ((lines_of f).take n) ≤ n) :
    print_first_n_lines_loop (f.length + 1) n 0 f out =
      some (out ++ ((lines_of f).take n).flatten) := by
  by_cases hle : (lines_of f).length ≤ n
  · rw [List.take_of_length_le hle] at hnul hreads ⊢
    have hf : ∀ c ∈ f, c ≠ 0 := by
      intro c hc
      rw [← flatten_lines_of f, List.mem_flatten] at hc
      obtain ⟨l, hl, hcl⟩ := hc
      exact hnul l hl c hcl
    rw [flatten_lines_of]
    exact print_first_n_lines_loop_whole (f.length + 1) n 0 f out (by omega) hf
      (by simpa using hreads)
  · have hlen : ((lines_of f).take n).length = n := by
      rw [List.length_take]; omega
    have hne : ∀ l ∈ (lines_of f).take n, l ≠ [] := fun l hl =>
      lines_of_ne_nil f l (List.mem_of_mem_take hl)
    have hshort := short_of_total_reads ((lines_of f).take n) hne (by omega)
    have h := print_first_n_lines_loop_lines (f.length + 1) n 0 f out (by omega)
      (by simpa using fun l hl => ⟨hshort l hl, hnul l hl⟩)
    simpa using h

/-! ## C5 -/

/-- C5, as stated, fails: on a file of twelve lines whose first line has 600
bytes, print_first_n_lines(path, 10) does not print the first ten lines: the
long line is read in two pieces, each counted as a line. -/
theorem print_first_n_lines_long_line :
    10 ≤ (lines_of (List.replicate 599 120 ++ bytes "\n1\n2\n3\n4\n5\n6\n7\n8\n9\n10\n11\n")).length ∧
    print_first_n_lines
        (fun _ => some (List.replicate 599 120 ++ bytes "\n1\n2\n3\n4\n5\n6\n7\n8\n9\n10\n11\n"))
        (bytes "/proc/cpuinfo") 10 =
      some (List.replicate 599 120 ++ bytes "\n1\n2\n3\n4\n5\n6\n7\n8\n") ∧
    ((lines_of (List.replicate 599 120 ++ bytes "\n1\n2\n3\n4\n5\n6\n7\n8\n9\n10\n11\n")).take
        10).flatten =
      List.replicate 599 120 ++ bytes "\n1\n2\n3\n4\n5\n6\n7\n8\n9\n" ∧
    print_first_n_lines
        (fun _ => some (List.replicate 599 120 ++ bytes "\n1\n2\n3\n4\n5\n6\n7\n8\n9\n10\n11\n"))
        (bytes "/proc/cpuinfo") 10 ≠
      some (((lines_of
        (List.replicate 599 120 ++ bytes "\n1\n2\n3\n4\n5\n6\n7\n8\n9\n10\n11\n")).take
        10).flatten) := by
  set_option maxRecDepth 100000 in decide

/-- C5, amended: print_first_n_lines(path, 10) always returns and never
prints more than 10 lines. When the first 10 lines of the file (all its
lines, when it has fewer) have no NUL byte and take at most 10 calls of fgets
together, a line of k bytes, newline included, taking one call for each 511
bytes started, it prints exactly the first 10 lines, which is the whole file
when the file has at most 10 lines. That is so in particular when each of
the first 10 lines has at most 511 bytes. What follows the tenth line is
never read and is under no condition. -/
theorem print_first_n_lines_ten (fopen : List Nat → Option (List Nat))
    (path content : List Nat) (hopen : fopen path = some content) :
    ∃ out, print_first_n_lines fopen path 10 = some out ∧
      (lines_of out).length ≤ 10 ∧
      ((∀ l ∈ (lines_of content).take 10, ∀ c ∈ l, c ≠ 0) →
        total_reads ((lines_of content).take 10) ≤ 10 →
        out = ((lines_of content).take 10).flatten ∧
        ((lines_of content).length ≤ 10 → out = content)) ∧
      ((∀ l ∈ (lines_of content).take 10, l.length ≤ 511 ∧ ∀ c ∈ l, c ≠ 0) →
        out = ((lines_of content).take 10).flatten) := by
  obtain ⟨r, hr, hb⟩ :=
    print_first_n_lines_loop_bound (content.length + 1) 10 0 content [] (by omega)
  have hmain : (∀ l ∈ (lines_of content).take 10, ∀ c ∈ l, c ≠ 0) →
      total_reads ((lines_of content).take 10) ≤ 10 →
      r = ((lines_of content).take 10).flatten := by
    intro hnul hreads
    have he := print_first_n_lines_loop_reads 10 content [] hnul hreads
    simp only [Nat.cast_ofNat] at he
    rw [hr] at he
    simpa using he
  refine ⟨r, by simp [print_first_n_lines, hopen, hr], by simpa [lines_of] using hb, ?_, ?_⟩
  · intro hnul hreads
    have hout := hmain hnul hreads
    refine ⟨hout, fun hle => ?_⟩
    rw [hout, List.take_of_length_le hle, flatten_lines_of]
  · intro hfirst
    have hshort := total_reads_of_short ((lines_of content).take 10)
      (fun l hl => (hfirst l hl).1)
    have hlen : ((lines_of content).take 10).length ≤ 10 := by
      rw [List.length_take]; omega
    exact hmain (fun l hl => (hfirst l hl).2) (by omega)

/-- A file of twelve short lines, a file of two lines, a file of ten short
lines followed by a line of 600 bytes, and a file of one line of 600
bytes. -/
theorem print_first_n_lines_ten_witness :
    (∃ out, print_first_n_lines
        (fun _ => some (bytes "0\n1\n2\n3\n4\n5\n6\n7\n8\n9\n10\n11\n"))
        (bytes "/proc/cpuinfo") 10 = some out ∧
      (lines_of out).length ≤ 10 ∧ out = bytes "0\n1\n2\n3\n4\n5\n6\n7\n8\n9\n") ∧
    (∃ out, print_first_n_lines (fun _ => some (bytes "MemTotal: 1 kB\nMemFree: 0 kB\n"))
        (bytes "/proc/meminfo") 10 = some out ∧
      (lines_of out).length ≤ 10 ∧ out = bytes "MemTotal: 1 kB\nMemFree: 0 kB\n") ∧
    (∃ out, print_first_n_lines
        (fun _ => some (bytes "0\n1\n2\n3\n4\n5\n6\n7\n8\n9\n" ++ List.replicate 599 120 ++
          [10]))
        (bytes "/proc/cpuinfo") 10 = some out ∧
      (lines_of out).length ≤ 10 ∧ out = bytes "0\n1\n2\n3\n4\n5\n6\n7\n8\n9\n") ∧
    (∃ out, print_first_n_lines (fun _ => some (List.replicate 599 120 ++ [10]))
        (bytes "/proc/cpuinfo") 10 = some out ∧
      (lines_of out).length ≤ 10 ∧ out = List.replicate 599 120 ++ [10]) := by
  refine ⟨?_, ?_, ?_, ?_⟩
  · obtain ⟨out, h1, h2, _, h4⟩ := print_first_n_lines_ten
      (fun _ => some (bytes "0\n1\n2\n3\n4\n5\n6\n7\n8\n9\n10\n11\n"))
      (bytes "/proc/cpuinfo") (bytes "0\n1\n2\n3\n4\n5\n6\n7\n8\n9\n10\n11\n") rfl
    exact ⟨out, h1, h2, (h4 (by decide)).trans (by decide)⟩
  · obtain ⟨out, h1, h2, h3, _⟩ := print_first_n_lines_ten
      (fun _ => some (bytes "MemTotal: 1 kB\nMemFree: 0 kB\n"))
      (bytes "/proc/meminfo") (bytes "MemTotal: 1 kB\nMemFree: 0 kB\n") rfl
    exact ⟨out, h1, h2, (h3 (by decide) (by decide)).2 (by decide)⟩
  · obtain ⟨out, h1, h2, _, h4⟩ := print_first_n_lines_ten
      (fun _ => some (bytes "0\n1\n2\n3\n4\n5\n6\n7\n8\n9\n" ++ List.replicate 599 120 ++
        [10]))
      (bytes "/proc/cpuinfo")
      (bytes "0\n1\n2\n3\n4\n5\n6\n7\n8\n9\n" ++ List.replicate 599 120 ++ [10]) rfl
    exact ⟨out, h1, h2,
      (h4 (by set_option maxRecDepth 100000 in decide)).trans
        (by set_option maxRecDepth 100000 in decide)⟩
  · obtain ⟨out, h1, h2, h3, _⟩ := print_first_n_lines_ten
      (fun _ => some (List.replicate 599 120 ++ [10]))
      (bytes "/proc/cpuinfo") (List.replicate 599 120 ++ [10]) rfl
    exact ⟨out, h1, h2,
      (h3 (by set_option maxRecDepth 100000 in decide)
        (by set_option maxRecDepth 100000 in decide)).2
        (by set_option maxRecDepth 100000 in decide)⟩

/-! ## The status phase of read_process_info -/

theorem strncmp_eq_zero (s1 s2 : List Nat) (n : Nat) :
    strncmp s1 s2 n = 0 ↔ (cstr s1).take n = (cstr s2).take n := by
  induction n generalizing s1 s2 with
  | zero => simp [strncmp]
  | succ n ih =>
    cases s1 with
    | nil =>
      cases s2 with
      | nil => simp [strncmp, deref, cstr]
      | cons d t =>
        by_cases hd : d = 0
        · simp [strncmp, deref, cstr, hd]
        · have hd2 : ¬ (0 = d) := fun h => hd h.symm
          simp [strncmp, deref, cstr, hd, hd2]
    | cons c s =>
      cases s2 with
      | nil =>
        by_cases hc : c = 0
        · simp [strncmp, deref, cstr, hc]
        · simp [strncmp, deref, cstr, hc]
      | cons d t =>
        by_cases hcd : c = d
        · subst hcd
          by_cases hc : c = 0
          · simp [strncmp, deref, cstr, hc]
          · simp [strncmp, deref, cstr, hc, ih s t]
        · by_cases hc : c = 0
          · have hd : ¬ (d = 0) := fun h => hcd (hc.trans h.symm)
            have hd2 : ¬ (0 = d) := fun h => hd h.symm
            simp [strncmp, deref, cstr, hc, hd, hd2]
          · by_cases hd : d = 0
            · simp [strncmp, deref, cstr, hc, hd]
            · simp [strncmp, deref, cstr, hc, hd, hcd]
              omega

theorem keys_loop_eq (ks : List (List Nat)) (line : List Nat)
    (hks : ∀ k ∈ ks, cstr k = k) (hline : ∀ c ∈ line, c ≠ 0) :
    keys_loop ks line = if begins_with_one_of ks line = true then line else [] := by
  induction ks with
  | nil => simp [keys_loop, begins_with_one_of]
  | cons k rest ih =>
    have hk : cstr k = k := hks k (List.mem_cons_self k rest)
    have hrest := ih (fun k1 h1 => hks k1 (List.mem_cons_of_mem k h1))
    have hcmp : strncmp line k (strlen k) = 0 ↔ k.isPrefixOf line = true := by
      rw [strncmp_eq_zero, strlen, hk, cstr_of_no_nul line hline, List.take_length,
        List.isPrefixOf_iff_prefix, List.prefix_iff_eq_take]
      exact eq_comm
    by_cases hp : k.isPrefixOf line = true
    · simp [keys_loop, hcmp.2 hp, begins_with_one_of, hp, printf_s,
        cstr_of_no_nul line hline]
    · have hne : ¬ strncmp line k (strlen k) = 0 := fun h => hp (hcmp.1 h)
      simp only [keys_loop, if_neg hne, hrest]
      simp [begins_with_one_of, hp]

theorem keys_no_nul : ∀ k ∈ keys, cstr k = k := by decide

/-- The status loop returns, and what it appends to the output depends on
the record only. -/
theorem status_loop_appends (fuel : Nat) (f : List Nat) (hfuel : f.length < fuel) :
    ∃ fields, ∀ out, status_loop fuel f out = some (out ++ fields) := by
  induction fuel generalizing f with
  | zero => omega
  | succ fuel ih =>
    cases hg : fgets 512 f with
    | none => exact ⟨[], fun out => by simp [status_loop, hg]⟩
    | some p =>
      obtain ⟨line, f1⟩ := p
      obtain ⟨_, hlen⟩ := fgets_some f line f1 hg
      obtain ⟨fields, hf⟩ := ih f1 (by omega)
      exact ⟨keys_loop keys line ++ fields, fun out => by
        simp [status_loop, hg, hf, List.append_assoc]⟩

theorem status_loop_lines (fuel : Nat) (f out : List Nat)
    (hfuel : f.length < fuel) (hnul : ∀ c ∈ f, c ≠ 0)
    (hshort : ∀ l ∈ lines_of f, l.length ≤ 511) :
    status_loop fuel f out =
      some (out ++ ((lines_of f).filter (begins_with_one_of keys)).flatten) := by
  induction fuel generalizing f out with
  | zero => omega
  | succ fuel ih =>
    cases hl : lines_of f with
    | nil =>
      have hf : f = [] := (lines_of_eq_nil f).1 hl
      subst hf
      simp [status_loop, fgets]
    | cons l ls =>
      obtain ⟨f1, hg, hls⟩ := fgets_line f l ls hl (hshort l (by rw [hl]; simp))
      obtain ⟨happ, hlen⟩ := fgets_some f l f1 hg
      have hline : ∀ c ∈ l, c ≠ 0 := fun c hc =>
        hnul c (by rw [← happ]; exact List.mem_append_left f1 hc)
      have hf1 : ∀ c ∈ f1, c ≠ 0 := fun c hc =>
        hnul c (by rw [← happ]; exact List.mem_append_right l hc)
      have hs1 : ∀ l1 ∈ lines_of f1, l1.length ≤ 511 := fun l1 h1 =>
        hshort l1 (by rw [hl, ← hls]; exact List.mem_cons_of_mem l h1)
      simp only [status_loop, hg]
      rw [ih f1 (out ++ keys_loop keys l) (by omega) hf1 hs1, hls,
        keys_loop_eq keys l keys_no_nul hline]
      by_cases hb : begins_with_one_of keys l = true
      · simp [hb, List.filter_cons]
      · simp [hb, List.filter_cons]

/-! ## C2 -/

/-- C2, as stated, fails twice. A line that begins with a field name not
followed by a colon is not printed; and a line of more than 511 bytes that
begins with a key is not printed verbatim: only its first 511 bytes are. -/
theorem status_phase_not_prefix_filter :
    (status_loop ((bytes "Namespace:\t4\n").length + 1) (bytes "Namespace:\t4\n") [] = some [] ∧
     ((lines_of (bytes "Namespace:\t4\n")).filter (begins_with_one_of field_names)).flatten =
       bytes "Namespace:\t4\n") ∧
    (status_loop ((bytes "Name:\t" ++ List.replicate 510 97 ++ [10]).length + 1)
        (bytes "Name:\t" ++ List.replicate 510 97 ++ [10]) [] =
       some (bytes "Name:\t" ++ List.replicate 505 97) ∧
     ((lines_of (bytes "Name:\t" ++ List.replicate 510 97 ++ [10])).filter
        (begins_with_one_of field_names)).flatten =
       bytes "Name:\t" ++ List.replicate 510 97 ++ [10]) := by
  set_option maxRecDepth 100000 in decide

/-- C2, amended: for a status record without NUL bytes whose lines have at
most 511 bytes each, newline included, the status phase appends to the
output exactly the lines that begin with one of the ten keys "Name:",
"Umask:", "State:", "Tgid:", "Ngid:", "Pid:", "PPid:", "TracerPid:",
"Uid:", "Gid:" (field name and colon), each verbatim and once, in their
original order, and nothing for the other lines. -/
theorem status_phase_prints_key_lines (status out : List Nat)
    (hnul : ∀ c ∈ status, c ≠ 0)
    (hshort : ∀ l ∈ lines_of status, l.length ≤ 511) :
    status_loop (status.length + 1) status out =
      some (out ++ ((lines_of status).filter (begins_with_one_of keys)).flatten) :=
  status_loop_lines (status.length + 1) status out (by omega) hnul hshort

/-- On the sample record the ten key lines are printed, the five others are
not. -/
theorem status_phase_prints_key_lines_witness :
    status_loop (sample_status.length + 1) sample_status [] =
      some (bytes "Name:\tbash\nUmask:\t0022\nState:\tS (sleeping)\nTgid:\t42\nNgid:\t0\n" ++
        bytes "Pid:\t42\nPPid:\t1\nTracerPid:\t0\nUid:\t0\t0\t0\t0\nGid:\t0\t0\t0\t0\n") := by
  have h := status_phase_prints_key_lines sample_status []
    (by set_option maxRecDepth 100000 in decide)
    (by set_option maxRecDepth 100000 in decide)
  exact h.trans (by set_option maxRecDepth 100000 in decide)

/-! ## The command-line phase of read_process_info -/

theorem cstr_append_nul (pre t : List Nat) (hpre : ∀ c ∈ pre, c ≠ 0) :
    cstr (pre ++ 0 :: t) = pre := by
  induction pre with
  | nil => simp [cstr]
  | cons c pre ih =>
    have hc : c ≠ 0 := hpre c (List.mem_cons_self c pre)
    have h := ih (fun d hd => hpre d (List.mem_cons_of_mem c hd))
    rw [List.cons_append, cstr, if_neg hc, h]

theorem nul_to_space_no_nul (s : List Nat) : ∀ c ∈ nul_to_space s, c ≠ 0 := by
  intro c hc
  simp only [nul_to_space, List.mem_map] at hc
  obtain ⟨d, _, hd⟩ := hc
  by_cases h0 : d = 0
  · simp [h0] at hd; omega
  · simp [h0] at hd; omega

theorem nul_to_space_loop_length (k i : Nat) (buf : List Nat) :
    (nul_to_space_loop k i buf).length = buf.length := by
  induction k generalizing i buf with
  | zero => simp [nul_to_space_loop]
  | succ k ih =>
    simp only [nul_to_space_loop]
    rw [ih]
    split <;> simp

/-- The loop over the chunk replaces the NUL bytes of the chunk and leaves
the rest of the buffer as it was. -/
theorem nul_to_space_loop_eq (mid apre post : List Nat) :
    nul_to_space_loop mid.length apre.length (apre ++ mid ++ post) =
      apre ++ nul_to_space mid ++ post := by
  induction mid generalizing apre with
  | nil => simp [nul_to_space_loop, nul_to_space]
  | cons c mid ih =>
    have hget : (apre ++ c :: mid ++ post).getD apre.length 0 = c := by
      rw [List.append_assoc, List.getD_eq_getElem?_getD,
        List.getElem?_append_right (le_refl _)]
      simp
    have hstep : (if (apre ++ c :: mid ++ post).getD apre.length 0 = 0
        then (apre ++ c :: mid ++ post).set apre.length 32 else apre ++ c :: mid ++ post) =
        (apre ++ [if c = 0 then 32 else c]) ++ mid ++ post := by
      rw [hget]
      by_cases hc : c = 0
      · simp [hc]
      · simp [hc]
    have hlen : apre.length + 1 = (apre ++ [if c = 0 then 32 else c]).length := by simp
    simp only [List.length_cons, nul_to_space_loop]
    rw [hstep, hlen, ih]
    simp [nul_to_space]

theorem cmdline_loop_chunks (chunks : List (List Nat)) (buf out : List Nat)
    (hbuf : buf.length = 1024)
    (hsize : ∀ c ∈ chunks, 1 ≤ c.length ∧ c.length ≤ 1023) :
    cmdline_loop (chunks.map ReadResult.data) buf out =
      Run.returned (out ++ nul_to_space chunks.flatten) := by
  induction chunks generalizing buf out with
  | nil => simp [cmdline_loop, nul_to_space]
  | cons c rest ih =>
    have hc := hsize c (List.mem_cons_self c rest)
    have hgot : sys_read_chunk 1024 c = c := by
      simp [sys_read_chunk, List.take_of_length_le (show c.length ≤ 1024 by omega)]
    have hpos : 0 < c.length := hc.1
    have hdrop : 0 < (buf.drop c.length).length := by rw [List.length_drop]; omega
    obtain ⟨d, t, hdt⟩ := List.exists_cons_of_length_pos hdrop
    have hloop : nul_to_space_loop c.length 0 (sys_read buf c) =
        nul_to_space c ++ d :: t := by
      have h := nul_to_space_loop_eq c [] (d :: t)
      simpa [sys_read, hdt] using h
    have hclen : (nul_to_space c).length = c.length := by simp [nul_to_space]
    have hstore : store (nul_to_space c ++ d :: t) c.length 0 =
        some (nul_to_space c ++ 0 :: t) := by
      have hset : (nul_to_space c ++ d :: t).set (nul_to_space c).length 0 =
          nul_to_space c ++ 0 :: t := by simp
      rw [hclen] at hset
      simp [store, hclen, hset]
    have htl : t.length + c.length + 1 = 1024 := by
      have h := congrArg List.length hdt
      rw [List.length_drop, List.length_cons] at h
      omega
    have hbuf2 : (nul_to_space c ++ 0 :: t).length = 1024 := by
      rw [List.length_append, hclen, List.length_cons]; omega
    simp only [List.map_cons, cmdline_loop, hgot, hpos, if_true, hloop, hstore]
    rw [ih (nul_to_space c ++ 0 :: t) _ hbuf2
      (fun e he => hsize e (List.mem_cons_of_mem c he)), printf_s,
      cstr_append_nul _ t (nul_to_space_no_nul c)]
    simp [nul_to_space]

theorem store_full_chunk (chunk buf : List Nat) (hbuf : buf.length = 1024)
    (hfull : 1024 ≤ chunk.length) :
    (sys_read_chunk 1024 chunk).length = 1024 ∧
    store (nul_to_space_loop (sys_read_chunk 1024 chunk).length 0
      (sys_read buf (sys_read_chunk 1024 chunk))) (sys_read_chunk 1024 chunk).length 0 =
      none := by
  have hgot : (sys_read_chunk 1024 chunk).length = 1024 := by
    simp [sys_read_chunk]; omega
  refine ⟨hgot, ?_⟩
  simp [store, nul_to_space_loop_length, sys_read, hgot, hbuf]

theorem cmdline_loop_full_chunk (chunk : List Nat) (rest : List ReadResult)
    (buf out : List Nat) (hbuf : buf.length = 1024) (hfull : 1024 ≤ chunk.length) :
    cmdline_loop (ReadResult.data chunk :: rest) buf out = Run.undefined := by
  obtain ⟨hgot, hstore⟩ := store_full_chunk chunk buf hbuf hfull
  simp only [cmdline_loop, hstore]
  simp [hgot]

/-! ## C3 and C10 -/

/-- C3: with the 1024-byte buffer at any content and the reads split into
chunks of 1 to 1023 bytes, the command-line loop prints the input with each
NUL replaced by a space and every other byte unchanged, wherever the chunk
boundaries fall. A read that fills the buffer (a chunk of 1024 bytes) makes
the run undefined instead: the terminator is stored past the buffer. -/
theorem cmdline_phase_output (chunks : List (List Nat)) (buf out : List Nat)
    (hbuf : buf.length = 1024) :
    ((∀ c ∈ chunks, 1 ≤ c.length ∧ c.length ≤ 1023) →
      cmdline_loop (chunks.map ReadResult.data) buf out =
        Run.returned (out ++ nul_to_space chunks.flatten)) ∧
    (∀ (chunk : List Nat) (rest : List ReadResult), chunk.length = 1024 →
      cmdline_loop (ReadResult.data chunk :: rest) buf out = Run.undefined) :=
  ⟨fun hsize => cmdline_loop_chunks chunks buf out hbuf hsize,
   fun chunk rest hfull => cmdline_loop_full_chunk chunk rest buf out hbuf (by omega)⟩

/-- The input foo\0bar\0baz\0 read as 5 and then 7 bytes, and a command line
of 1024 bytes read in one call. -/
theorem cmdline_phase_output_witness :
    cmdline_loop ([bytes "foo\x00b", bytes "ar\x00baz\x00"].map ReadResult.data)
        (List.replicate 1024 0) [] = Run.returned (bytes "foo bar baz ") ∧
    cmdline_loop [ReadResult.data (List.replicate 1024 97)] (List.replicate 1024 0) [] =
      Run.undefined := by
  have h := cmdline_phase_output [bytes "foo\x00b", bytes "ar\x00baz\x00"]
    (List.replicate 1024 0) [] (List.length_replicate 1024 0)
  exact ⟨(h.1 (by decide)).trans (by set_option maxRecDepth 100000 in decide),
    h.2 (List.replicate 1024 97) [] (List.length_replicate 1024 97)⟩

/-- C10: for a chunk of 1 to 1024 bytes read into the 1024-byte buffer, the
store of the terminator at buf[bytes] is outside the buffer exactly when the
chunk has 1024 bytes, the largest length the read can return. -/
theorem terminator_store_index (chunk buf : List Nat) (hbuf : buf.length = 1024)
    (hmin : 1 ≤ chunk.length) (hmax : chunk.length ≤ 1024) :
    store (nul_to_space_loop (sys_read_chunk 1024 chunk).length 0
      (sys_read buf (sys_read_chunk 1024 chunk))) (sys_read_chunk 1024 chunk).length 0 =
      none ↔ chunk.length = 1024 := by
  have hgot : sys_read_chunk 1024 chunk = chunk := by
    simp [sys_read_chunk, List.take_of_length_le hmax]
  rw [hgot]
  have hlen : (nul_to_space_loop chunk.length 0 (sys_read buf chunk)).length = 1024 := by
    rw [nul_to_space_loop_length]
    simp [sys_read, hbuf]
    omega
  simp only [store, hlen]
  constructor
  · intro h
    by_cases hlt : chunk.length < 1024
    · simp [hlt] at h
    · omega
  · intro h
    simp [h]

/-- A read that fills the buffer: the terminator goes to buf[1024]. -/
theorem terminator_store_index_witness :
    store (nul_to_space_loop (sys_read_chunk 1024 (List.replicate 1024 97)).length 0
      (sys_read (List.replicate 1024 0) (sys_read_chunk 1024 (List.replicate 1024 97))))
      (sys_read_chunk 1024 (List.replicate 1024 97)).length 0 = none :=
  (terminator_store_index (List.replicate 1024 97) (List.replicate 1024 0)
    (List.length_replicate 1024 0)
    (by rw [List.length_replicate]; omega) (by rw [List.length_replicate])).2
    (List.length_replicate 1024 97)

/-! ## list_process_directories -/

theorem wrap32_of_fits (x : Int) (h1 : -2147483648 ≤ x) (h2 : x < 2147483648) :
    wrap32 x = x := by
  simp only [wrap32]; omega

theorem readdir_loop_eq (dir : List (List Nat)) (count : Int) (out : List Nat)
    (h0 : 0 ≤ count)
    (hfit : count + ((dir.filter (fun d => decide (is_number (some d) = 1))).length : Int)
      < 2147483648) :
    readdir_loop dir count out =
      (count + ((dir.filter (fun d => decide (is_number (some d) = 1))).length : Int),
       out ++ (((dir.filter (fun d => decide (is_number (some d) = 1))).map
         (fun d => printf_s_left8 d ++ bytes " process\n")).flatten)) := by
  induction dir generalizing count out with
  | nil => simp [readdir_loop]
  | cons d rest ih =>
    by_cases hd : is_number (some d) = 1
    · have hne : is_number (some d) ≠ 0 := by rw [hd]; decide
      simp only [List.filter_cons, hd, decide_True, if_true, List.length_cons,
        Nat.cast_add, Nat.cast_one] at hfit ⊢
      have hw : wrap32 (count + 1) = count + 1 := wrap32_of_fits _ (by omega) (by omega)
      simp only [readdir_loop, if_pos hne, hw]
      rw [ih (count + 1) _ (by omega) (by omega)]
      simp [List.append_assoc]
      omega
    · have h0' : is_number (some d) = 0 := by
        have h := is_number_zero_or_one (some d)
        tauto
      simp only [List.filter_cons, hd, decide_False] at hfit ⊢
      simp only [readdir_loop, h0', ne_eq, not_true_eq_false, if_false]
      exact ih count out h0 (by simpa using hfit)

/-! ## C4 -/

/-- C4: when the directory opens, list_process_directories returns 0 and
prints, after the heading, one row for each entry whose name satisfies
is_number and for no other entry, in enumeration order, and then reports as
the count the number of entries that satisfy is_number (a number that fits
the int counter). -/
theorem list_process_directories_rows_and_count
    (opendir : List Nat → Option (List (List Nat))) (dir : List (List Nat))
    (hopen : opendir (bytes "/proc") = some dir)
    (hfit : (dir.filter (fun d => decide (is_number (some d) = 1))).length < 2147483648) :
    list_process_directories opendir =
      (0, bytes "Listing all process directories in /proc...\n" ++
          bytes "PID      Type\n" ++ bytes "---      ----\n" ++
          (((dir.filter (fun d => decide (is_number (some d) = 1))).map
            (fun d => printf_s_left8 d ++ bytes " process\n")).flatten) ++
          (bytes "Found " ++
            utoa (dir.filter (fun d => decide (is_number (some d) = 1))).length ++
            bytes " process directories\n") ++
          bytes "SUCCESS: Process directories listed!\n") := by
  have h := readdir_loop_eq dir 0
    (bytes "Listing all process directories in /proc...\n" ++
      bytes "PID      Type\n" ++ bytes "---      ----\n") (le_refl 0) (by omega)
  simp only [list_process_directories, hopen, h, zero_add]
  have hd : printf_d ((dir.filter (fun d => decide (is_number (some d) = 1))).length : Int) =
      utoa (dir.filter (fun d => decide (is_number (some d) = 1))).length := by
    simp [printf_d]
  rw [hd]

/-- The listing with the entries 1, 2, self, cpuinfo, 42: three rows, and a
count of 3. -/
theorem list_process_directories_rows_and_count_witness :
    list_process_directories
        (fun _ => some [bytes "1", bytes "2", bytes "self", bytes "cpuinfo", bytes "42"]) =
      (0, bytes "Listing all process directories in /proc...\n" ++
          bytes "PID      Type\n" ++ bytes "---      ----\n" ++
          bytes "1        process\n" ++ bytes "2        process\n" ++
          bytes "42       process\n" ++
          bytes "Found 3 process directories\n" ++
          bytes "SUCCESS: Process directories listed!\n") :=
  (list_process_directories_rows_and_count
    (fun _ => some [bytes "1", bytes "2", bytes "self", bytes "cpuinfo", bytes "42"])
    [bytes "1", bytes "2", bytes "self", bytes "cpuinfo", bytes "42"] rfl
    (by decide)).trans (by set_option maxRecDepth 100000 in decide)

/-! ## The conversion of the identifier and the paths -/

theorem decimal_value_cons (c : Nat) (ds : List Nat) :
    decimal_value (c :: ds) = (c - 48) * 10 ^ ds.length + decimal_value ds := by
  simp only [decimal_value, List.reverse_cons, List.map_append, List.map_cons, List.map_nil,
    Nat.ofDigits_append, Nat.ofDigits_singleton, List.length_map, List.length_reverse]
  ring

theorem atoi_digits_append (ds rest : List Nat) (acc : Nat)
    (hds : ∀ c ∈ ds, isdigit c = true) (hrest : isdigit (deref rest) = false) :
    atoi_digits (ds ++ rest) acc = acc * 10 ^ ds.length + decimal_value ds := by
  induction ds generalizing acc with
  | nil =>
    cases rest with
    | nil => simp [atoi_digits, decimal_value]
    | cons c t =>
      have hc : isdigit c = false := by simpa [deref] using hrest
      simp [atoi_digits, hc, decimal_value]
  | cons c ds ih =>
    have hc : isdigit c = true := hds c (List.mem_cons_self c ds)
    have h := ih (10 * acc + (c - 48)) (fun d hd => hds d (List.mem_cons_of_mem c hd))
    rw [List.cons_append, atoi_digits, if_pos hc, h, decimal_value_cons, List.length_cons]
    ring

theorem wrap32_clamp64_of_fits (v : Nat) (hv : v < 2147483648) :
    wrap32 (clamp64 (v : Int)) = (v : Int) := by
  have h1 : clamp64 (v : Int) = (v : Int) := by
    simp only [clamp64]
    rw [if_neg (by omega), if_neg (by omega)]
  rw [h1]
  exact wrap32_of_fits _ (by omega) (by omega)

theorem wrap32_range (x : Int) : -2147483648 ≤ wrap32 x ∧ wrap32 x < 2147483648 := by
  simp only [wrap32]; omega

/-- A string whose first character is not a digit, a sign or white space
converts to 0. -/
theorem atoi_no_number (s : List Nat) (hd : isdigit (deref s) = false)
    (hs : isspace (deref s) = false) (hplus : deref s ≠ 43) (hminus : deref s ≠ 45) :
    atoi s = 0 := by
  cases s with
  | nil => decide
  | cons c t =>
    simp only [deref, List.headD_cons] at hd hs hplus hminus
    have h1 : (c :: t).dropWhile isspace = c :: t := by simp [List.dropWhile, hs]
    have h2 : atoi_sign (c :: t) = (false, c :: t) := by
      unfold atoi_sign
      split
      · rename_i heq; simp only [List.cons.injEq] at heq; omega
      · rename_i heq; simp only [List.cons.injEq] at heq; omega
      · rfl
    have h3 : atoi_digits (c :: t) 0 = 0 := by simp [atoi_digits, hd]
    simp only [atoi, h1, h2, h3]
    decide

/-- A string that begins with a run of digits, followed by something that is
not a digit, converts to the value of the run when that fits an int. -/
theorem atoi_digit_prefix (ds rest : List Nat) (hne : ds ≠ [])
    (hds : ∀ c ∈ ds, isdigit c = true) (hrest : isdigit (deref rest) = false)
    (hfit : decimal_value ds < 2147483648) :
    atoi (ds ++ rest) = (decimal_value ds : Int) := by
  cases ds with
  | nil => exact absurd rfl hne
  | cons c ds =>
    have hc : isdigit c = true := hds c (List.mem_cons_self c ds)
    have hc2 : 48 ≤ c ∧ c ≤ 57 := by simpa [isdigit] using hc
    have hs : isspace c = false := by
      simp only [isspace, Bool.or_eq_false_iff, decide_eq_false_iff_not, Bool.and_eq_false_iff]
      omega
    have h1 : (c :: ds ++ rest).dropWhile isspace = c :: (ds ++ rest) := by
      simp [List.dropWhile, hs]
    have h2 : atoi_sign (c :: (ds ++ rest)) = (false, c :: (ds ++ rest)) := by
      unfold atoi_sign
      split
      · rename_i heq; simp only [List.cons.injEq] at heq; omega
      · rename_i heq; simp only [List.cons.injEq] at heq; omega
      · rfl
    have h3 := atoi_digits_append (c :: ds) rest 0 hds hrest
    simp only [List.cons_append] at h3
    simp only [atoi, h1, h2, h3, Bool.false_eq_true, if_false, zero_mul, zero_add]
    exact wrap32_clamp64_of_fits _ hfit

theorem cstr_append_rest (s : List Nat) : ∃ rest, s = cstr s ++ rest ∧ deref rest = 0 := by
  induction s with
  | nil => exact ⟨[], by simp [cstr], rfl⟩
  | cons c s ih =>
    by_cases hc : c = 0
    · exact ⟨c :: s, by simp [cstr, hc], by simp [deref, hc]⟩
    · obtain ⟨rest, h1, h2⟩ := ih
      refine ⟨rest, ?_, h2⟩
      simp only [cstr, if_neg hc, List.cons_append]
      rw [← h1]

/-- A string that satisfies is_number converts to its decimal value when
that fits an int. -/
theorem atoi_of_is_number (s : List Nat) (hnum : is_number (some s) = 1)
    (hfit : decimal_value (cstr s) < 2147483648) :
    atoi s = (decimal_value (cstr s) : Int) := by
  obtain ⟨hne, hds⟩ := (is_number_some_eq_one s).1 hnum
  obtain ⟨rest, h1, h2⟩ := cstr_append_rest s
  have h := atoi_digit_prefix (cstr s) rest hne hds (by rw [h2]; decide) hfit
  rw [← h1] at h
  exact h

theorem utoa_loop_length (fuel n k : Nat) (acc : List Nat) (hk : 1 ≤ k) (hn : n < 10 ^ k) :
    (utoa_loop fuel n acc).length ≤ acc.length + k := by
  induction fuel generalizing n k acc with
  | zero => simp [utoa_loop]
  | succ fuel ih =>
    by_cases h10 : n < 10
    · simp only [utoa_loop, if_pos h10, List.length_cons]; omega
    · obtain ⟨j, rfl⟩ : ∃ j, k = j + 1 := ⟨k - 1, by omega⟩
      have hj : 1 ≤ j := by
        by_contra hj0
        have : j = 0 := by omega
        subst this
        simp at hn
        omega
      have hdiv : n / 10 < 10 ^ j := by
        rw [Nat.div_lt_iff_lt_mul (by norm_num)]
        rw [pow_succ] at hn
        exact hn
      have h := ih (n / 10) j ((48 + n % 10) :: acc) hj hdiv
      simp only [utoa_loop, if_neg h10]
      simp only [List.length_cons] at h
      omega

theorem printf_d_length (n : Int) (h1 : -2147483648 ≤ n) (h2 : n < 2147483648) :
    (printf_d n).length ≤ 11 := by
  by_cases hneg : n < 0
  · have h := utoa_loop_length ((-n).toNat + 1) (-n).toNat 10 [] (by norm_num)
      (by norm_num; omega)
    simp only [printf_d, if_pos hneg, List.length_cons, utoa]
    simp only [List.length_nil] at h
    omega
  · have h := utoa_loop_length (n.toNat + 1) n.toNat 10 [] (by norm_num)
      (by norm_num; omega)
    simp only [printf_d, if_neg hneg, utoa]
    simp only [List.length_nil] at h
    omega

/-- The path buffers of 256 bytes hold the formatted paths in full. -/
theorem paths_not_truncated (s : List Nat) :
    status_path (atoi s) = bytes "/proc/" ++ printf_d (atoi s) ++ bytes "/status" ∧
    cmdline_path (atoi s) = bytes "/proc/" ++ printf_d (atoi s) ++ bytes "/cmdline" := by
  have hr : -2147483648 ≤ atoi s ∧ atoi s < 2147483648 := by
    simp only [atoi]; exact wrap32_range _
  have hl := printf_d_length (atoi s) hr.1 hr.2
  have e1 : (bytes "/proc/").length = 6 := by decide
  have e2 : (bytes "/status").length = 7 := by decide
  have e3 : (bytes "/cmdline").length = 8 := by decide
  constructor
  · simp only [status_path, snprintf]
    apply List.take_of_length_le
    simp only [List.length_append, e1, e2]
    omega
  · simp only [cmdline_path, snprintf]
    apply List.take_of_length_le
    simp only [List.length_append, e1, e3]
    omega

/-! ## read_process_info as a whole -/

theorem cmdline_loop_prefix (fd : List ReadResult) (buf out r : List Nat)
    (h : cmdline_loop fd buf out = Run.returned r) : ∃ t, r = out ++ t := by
  induction fd generalizing buf out with
  | nil =>
    simp only [cmdline_loop, Run.returned.injEq] at h
    exact ⟨[], by simp [h]⟩
  | cons x rest ih =>
    cases x with
    | error =>
      simp only [cmdline_loop, Run.returned.injEq] at h
      exact ⟨[], by simp [h]⟩
    | data chunk =>
      simp only [cmdline_loop] at h
      split at h
      · split at h
        · exact absurd h (by simp)
        · rename_i buf2 _
          obtain ⟨t, ht⟩ := ih _ _ h
          exact ⟨printf_s buf2 ++ t, by rw [ht, List.append_assoc]⟩
      · simp only [Run.returned.injEq] at h
        exact ⟨[], by simp [h]⟩

theorem read_process_info_not_opened (fopen : List Nat → Option (List Nat))
    (sys_open : List Nat → Option (List ReadResult)) (pid_str : List Nat)
    (hopen : fopen (status_path (atoi pid_str)) = none) :
    read_process_info fopen sys_open pid_str =
      Run.returned (-1, bytes "Reading information for PID " ++ printf_d (atoi pid_str) ++
        bytes "...\n\n") := by
  simp [read_process_info, hopen]

theorem read_process_info_opened (fopen : List Nat → Option (List Nat))
    (pid_str status : List Nat)
    (hopen : fopen (status_path (atoi pid_str)) = some status) :
    ∃ fields, status_loop (status.length + 1) status [] = some fields ∧
      ∀ sys_open : List Nat → Option (List ReadResult),
        (sys_open (cmdline_path (atoi pid_str)) = none →
          read_process_info fopen sys_open pid_str =
            Run.returned (0, bytes "Reading information for PID " ++
              printf_d (atoi pid_str) ++ bytes "...\n\n" ++
              (bytes "--- Process Information for PID " ++ printf_d (atoi pid_str) ++
                bytes " ---\n") ++ fields ++ bytes "\n--- Command Line ---\n" ++
              bytes "SUCCESS: Process information read!\n")) ∧
        (∀ r, read_process_info fopen sys_open pid_str = Run.returned r →
          r.1 = 0 ∧ ∃ rest, r.2 = bytes "Reading information for PID " ++
              printf_d (atoi pid_str) ++ bytes "...\n\n" ++
              (bytes "--- Process Information for PID " ++ printf_d (atoi pid_str) ++
                bytes " ---\n") ++ fields ++ bytes "\n--- Command Line ---\n" ++ rest) := by
  obtain ⟨fields, hf⟩ := status_loop_appends (status.length + 1) status (by omega)
  refine ⟨fields, by simpa using hf [], fun sys_open => ⟨?_, ?_⟩⟩
  · intro hcmd
    simp only [read_process_info, hopen, hf, hcmd]
  · intro r hr
    simp only [read_process_info, hopen, hf] at hr
    cases hcmd : sys_open (cmdline_path (atoi pid_str)) with
    | none =>
      simp only [hcmd, Run.returned.injEq] at hr
      subst hr
      exact ⟨rfl, bytes "SUCCESS: Process information read!\n", rfl⟩
    | some fd =>
      simp only [hcmd] at hr
      split at hr
      · rename_i out4 hloop
        obtain ⟨t, ht⟩ := cmdline_loop_prefix _ _ _ _ hloop
        simp only [Run.returned.injEq] at hr
        subst hr
        refine ⟨rfl, t ++ bytes "\n" ++ bytes "SUCCESS: Process information read!\n", ?_⟩
        simp only [ht, List.append_assoc]
      · exact absurd hr (by simp)
      · exact absurd hr (by simp)

/-! ## C7 -/

/-- C7: when the status record cannot be opened, read_process_info returns
-1 and prints the opening line only: no status field line, no command-line
section. When the status record opens and the command-line record does not,
it returns 0 and prints, between the heading and the command-line heading,
the same status field lines as any run with the same status record whatever
the command-line record is. -/
theorem read_process_info_missing_records (fopen : List Nat → Option (List Nat))
    (sys_open : List Nat → Option (List ReadResult)) (pid_str : List Nat) :
    (fopen (status_path (atoi pid_str)) = none →
      read_process_info fopen sys_open pid_str =
        Run.returned (-1, bytes "Reading information for PID " ++ printf_d (atoi pid_str) ++
          bytes "...\n\n")) ∧
    (∀ status, fopen (status_path (atoi pid_str)) = some status →
      sys_open (cmdline_path (atoi pid_str)) = none →
      ∃ fields, status_loop (status.length + 1) status [] = some fields ∧
        read_process_info fopen sys_open pid_str =
          Run.returned (0, bytes "Reading information for PID " ++
            printf_d (atoi pid_str) ++ bytes "...\n\n" ++
            (bytes "--- Process Information for PID " ++ printf_d (atoi pid_str) ++
              bytes " ---\n") ++ fields ++ bytes "\n--- Command Line ---\n" ++
            bytes "SUCCESS: Process information read!\n") ∧
        ∀ (sys_open2 : List Nat → Option (List ReadResult)) (r : Int × List Nat),
          read_process_info fopen sys_open2 pid_str = Run.returned r →
          r.1 = 0 ∧ ∃ rest, r.2 = bytes "Reading information for PID " ++
            printf_d (atoi pid_str) ++ bytes "...\n\n" ++
            (bytes "--- Process Information for PID " ++ printf_d (atoi pid_str) ++
              bytes " ---\n") ++ fields ++ bytes "\n--- Command Line ---\n" ++ rest) := by
  refine ⟨read_process_info_not_opened fopen sys_open pid_str, ?_⟩
  intro status hopen hcmd
  obtain ⟨fields, h1, h2⟩ := read_process_info_opened fopen pid_str status hopen
  exact ⟨fields, h1, (h2 sys_open).1 hcmd, fun sys_open2 r hr => (h2 sys_open2).2 r hr⟩

/-- With the status record of process 7 missing, and with the status record
of process 42 present and its command-line record missing. -/
theorem read_process_info_missing_records_witness :
    read_process_info proc_with_42 cmdline_of_42 (bytes "7") =
      Run.returned (-1, bytes "Reading information for PID 7...\n\n") ∧
    ∃ fields, status_loop (sample_status.length + 1) sample_status [] = some fields ∧
      read_process_info proc_with_42 (fun _ => none) (bytes "42") =
        Run.returned (0, bytes "Reading information for PID " ++
          printf_d (atoi (bytes "42")) ++ bytes "...\n\n" ++
          (bytes "--- Process Information for PID " ++ printf_d (atoi (bytes "42")) ++
            bytes " ---\n") ++ fields ++ bytes "\n--- Command Line ---\n" ++
          bytes "SUCCESS: Process information read!\n") ∧
      ∀ (sys_open2 : List Nat → Option (List ReadResult)) (r : Int × List Nat),
        read_process_info proc_with_42 sys_open2 (bytes "42") = Run.returned r →
        r.1 = 0 ∧ ∃ rest, r.2 = bytes "Reading information for PID " ++
          printf_d (atoi (bytes "42")) ++ bytes "...\n\n" ++
          (bytes "--- Process Information for PID " ++ printf_d (atoi (bytes "42")) ++
            bytes " ---\n") ++ fields ++ bytes "\n--- Command Line ---\n" ++ rest :=
  ⟨((read_process_info_missing_records proc_with_42 cmdline_of_42 (bytes "7")).1
      (by decide)).trans (by decide),
   (read_process_info_missing_records proc_with_42 (fun _ => none) (bytes "42")).2
      sample_status (by set_option maxRecDepth 100000 in decide) rfl⟩

/-! ## C8 -/

theorem read_process_info_return_value (fopen : List Nat → Option (List Nat))
    (sys_open : List Nat → Option (List ReadResult)) (pid_str : List Nat)
    (r : Int × List Nat)
    (hrun : read_process_info fopen sys_open pid_str = Run.returned r) :
    (r.1 = 0 ∧ ∃ status, fopen (status_path (atoi pid_str)) = some status) ∨
    (r.1 = -1 ∧ fopen (status_path (atoi pid_str)) = none) := by
  cases hopen : fopen (status_path (atoi pid_str)) with
  | none =>
    rw [read_process_info_not_opened fopen sys_open pid_str hopen] at hrun
    simp only [Run.returned.injEq] at hrun
    subst hrun
    exact Or.inr ⟨rfl, rfl⟩
  | some status =>
    obtain ⟨fields, _, h2⟩ := read_process_info_opened fopen pid_str status hopen
    exact Or.inl ⟨((h2 sys_open).2 r hrun).1, status, rfl⟩

/-- C8, as stated, fails: with the status record of process 42 present,
read_process_info("42abc") opens it and returns 0, and is_number("42abc")
is 0. -/
theorem read_process_info_accepts_non_number :
    read_process_info proc_with_42 cmdline_of_42 (bytes "42abc") =
      Run.returned (0, bytes "Reading information for PID 42...\n\n" ++
        bytes "--- Process Information for PID 42 ---\n" ++
        bytes "Name:\tbash\nUmask:\t0022\nState:\tS (sleeping)\nTgid:\t42\nNgid:\t0\n" ++
        bytes "Pid:\t42\nPPid:\t1\nTracerPid:\t0\nUid:\t0\t0\t0\t0\nGid:\t0\t0\t0\t0\n" ++
        bytes "\n--- Command Line ---\n" ++ bytes "bash -l \n" ++
        bytes "SUCCESS: Process information read!\n") ∧
    proc_with_42 (status_path (atoi (bytes "42abc"))) = some sample_status ∧
    is_number (some (bytes "42abc")) = 0 := by
  set_option maxRecDepth 1000000 in decide

/-- C8, amended: read_process_info does not check the identifier with
is_number. Whenever it returns, it returns 0 exactly when the status record
of the process id atoi(pid_str) can be opened, and -1 exactly when it
cannot. -/
theorem read_process_info_success_iff_status_opens
    (fopen : List Nat → Option (List Nat))
    (sys_open : List Nat → Option (List ReadResult)) (pid_str : List Nat)
    (r : Int × List Nat)
    (hrun : read_process_info fopen sys_open pid_str = Run.returned r) :
    (r.1 = 0 ↔ ∃ status, fopen (status_path (atoi pid_str)) = some status) ∧
    (r.1 = -1 ↔ fopen (status_path (atoi pid_str)) = none) := by
  rcases read_process_info_return_value fopen sys_open pid_str r hrun with
    ⟨h1, status, h2⟩ | ⟨h1, h2⟩
  · refine ⟨⟨fun _ => ⟨status, h2⟩, fun _ => h1⟩, ⟨fun h => ?_, fun h => ?_⟩⟩
    · rw [h1] at h; exact absurd h (by decide)
    · rw [h2] at h; exact absurd h (by simp)
  · refine ⟨⟨fun h => ?_, fun h => ?_⟩, ⟨fun _ => h2, fun _ => h1⟩⟩
    · rw [h1] at h; exact absurd h (by decide)
    · obtain ⟨status, hs⟩ := h
      rw [h2] at hs; exact absurd hs (by simp)

/-- The identifier "42abc" with the status record of process 42 present, and
the identifier "7" with no status record for process 7. -/
theorem read_process_info_success_iff_status_opens_witness :
    (∃ status, proc_with_42 (status_path (atoi (bytes "42abc"))) = some status) ∧
    proc_with_42 (status_path (atoi (bytes "7"))) = none :=
  ⟨(read_process_info_success_iff_status_opens proc_with_42 (fun _ => none) (bytes "42abc")
      (0, bytes "Reading information for PID 42...\n\n" ++
        bytes "--- Process Information for PID 42 ---\n" ++
        bytes "Name:\tbash\nUmask:\t0022\nState:\tS (sleeping)\nTgid:\t42\nNgid:\t0\n" ++
        bytes "Pid:\t42\nPPid:\t1\nTracerPid:\t0\nUid:\t0\t0\t0\t0\nGid:\t0\t0\t0\t0\n" ++
        bytes "\n--- Command Line ---\n" ++
        bytes "SUCCESS: Process information read!\n")
      (by set_option maxRecDepth 1000000 in decide)).1.1 rfl,
   (read_process_info_success_iff_status_opens proc_with_42 (fun _ => none) (bytes "7")
      (-1, bytes "Reading information for PID 7...\n\n") (by decide)).2.1 rfl⟩

/-! ## C9 -/

/-- C9, as stated, fails: "-5" has no leading digit, and it converts to -5,
not to 0; the status path then has -5 as its process directory. -/
theorem atoi_minus_five :
    isdigit (deref (bytes "-5")) = false ∧ atoi (bytes "-5") = -5 ∧
    atoi (bytes "-5") ≠ 0 ∧
    status_path (atoi (bytes "-5")) = bytes "/proc/-5/status" := by
  decide

/-- C9, amended: read_process_info converts the identifier with atoi and
formats the result, untruncated, into /proc/<pid>/status and
/proc/<pid>/cmdline. An identifier whose first character is not a digit, a
sign or white space (or that is empty) gives pid 0; an identifier that
begins with a run of digits followed by a non-digit gives the value of the
run when it fits a 32-bit int; an identifier that satisfies is_number and
whose value fits a 32-bit int gives its decimal value. No identifier is
rejected before the status record is opened: a run returns -1 exactly when
that record cannot be opened. -/
theorem read_process_info_lenient_conversion (pid_str : List Nat) :
    (isdigit (deref pid_str) = false → isspace (deref pid_str) = false →
      deref pid_str ≠ 43 → deref pid_str ≠ 45 → atoi pid_str = 0) ∧
    (∀ ds rest, pid_str = ds ++ rest → ds ≠ [] → (∀ c ∈ ds, isdigit c = true) →
      isdigit (deref rest) = false → decimal_value ds < 2147483648 →
      atoi pid_str = (decimal_value ds : Int)) ∧
    (is_number (some pid_str) = 1 → decimal_value (cstr pid_str) < 2147483648 →
      atoi pid_str = (decimal_value (cstr pid_str) : Int)) ∧
    status_path (atoi pid_str) =
      bytes "/proc/" ++ printf_d (atoi pid_str) ++ bytes "/status" ∧
    cmdline_path (atoi pid_str) =
      bytes "/proc/" ++ printf_d (atoi pid_str) ++ bytes "/cmdline" ∧
    (∀ (fopen : List Nat → Option (List Nat))
      (sys_open : List Nat → Option (List ReadResult)) (r : Int × List Nat),
      read_process_info fopen sys_open pid_str = Run.returned r →
      (r.1 = -1 ↔ fopen (status_path (atoi pid_str)) = none)) := by
  refine ⟨atoi_no_number pid_str, ?_, atoi_of_is_number pid_str,
    (paths_not_truncated pid_str).1, (paths_not_truncated pid_str).2, ?_⟩
  · intro ds rest hs hne hds hrest hfit
    rw [hs]
    exact atoi_digit_prefix ds rest hne hds hrest hfit
  · intro fopen sys_open r hrun
    rcases read_process_info_return_value fopen sys_open pid_str r hrun with
      ⟨h1, status, h2⟩ | ⟨h1, h2⟩
    · constructor
      · intro h; rw [h1] at h; exact absurd h (by decide)
      · intro h; rw [h2] at h; exact absurd h (by simp)
    · exact ⟨fun _ => h2, fun _ => h1⟩

/-- The identifiers "abc", "12abc" and "2147483647". -/
theorem read_process_info_lenient_conversion_witness :
    (atoi (bytes "abc") = 0 ∧ status_path (atoi (bytes "abc")) = bytes "/proc/0/status") ∧
    (atoi (bytes "12abc") = 12 ∧
      status_path (atoi (bytes "12abc")) = bytes "/proc/12/status" ∧
      cmdline_path (atoi (bytes "12abc")) = bytes "/proc/12/cmdline") ∧
    atoi (bytes "2147483647") = 2147483647 := by
  have h1 := read_process_info_lenient_conversion (bytes "abc")
  have h2 := read_process_info_lenient_conversion (bytes "12abc")
  have h3 := read_process_info_lenient_conversion (bytes "2147483647")
  have e1 : atoi (bytes "abc") = 0 :=
    h1.1 (by decide) (by decide) (by decide) (by decide)
  have e2 : atoi (bytes "12abc") = 12 :=
    (h2.2.1 (bytes "12") (bytes "abc") (by decide) (by decide) (by decide) (by decide)
      (by decide)).trans (by decide)
  have e3 : atoi (bytes "2147483647") = 2147483647 :=
    (h3.2.2.1 (by decide) (by decide)).trans (by decide)
  refine ⟨⟨e1, ?_⟩, ⟨e2, ?_, ?_⟩, e3⟩
  · rw [h1.2.2.2.1, e1]; decide
  · rw [h2.2.2.2.1, e2]; decide
  · rw [h2.2.2.2.2.1, e2]; decide

end ProcReader
